import Mathlib

/-!
# flywheel configuration layer (`config.go`)

A shallow embedding of `config.go` of the flywheel repository and the
verification of its specification.

Conventions of the embedding:

* a Go `error` is an `Option String` (`none` is `nil`, `some msg` an error
  whose `Error()` text is `msg`);
* a method with a pointer receiver that mutates it returns the pair of its
  Go result and the receiver's final state;
* a Go slice or map is `Option (List _)`: `none` is the `nil` slice/map,
  `some xs` a non-nil one holding `xs` (for a map: its key/value pairs, keys
  pairwise distinct); `len` is `0` on `nil`;
* `Duration` (`int64` nanoseconds) is an `Int`.
-/

namespace Flywheel

/-! ## Data model -/

/-- Go `error`: `none` is `nil`. -/
abbrev GoError := Option String

/-- Go `len` of a slice or of a map. -/
def len {α : Type} : Option (List α) → Nat
  | none => 0
  | some xs => xs.length

/-- Go `len` of a string: its number of bytes. -/
def strLen (s : String) : Nat := s.utf8ByteSize

/-- The type `Duration` (`type Duration time.Duration`): a count of nanoseconds
(`int64`). -/
abbrev Duration := Int

/-- Constant `time.Nanosecond`. -/
def Nanosecond : Duration := 1
/-- Constant `time.Microsecond`. -/
def Microsecond : Duration := 1000 * Nanosecond
/-- Constant `time.Millisecond`. -/
def Millisecond : Duration := 1000 * Microsecond
/-- Constant `time.Second`. -/
def Second : Duration := 1000 * Millisecond
/-- Constant `time.Minute`. -/
def Minute : Duration := 60 * Second
/-- Constant `time.Hour`. -/
def Hour : Duration := 60 * Minute

/-- The struct `AutoScalingConfig`: the terminate map and the stop list. -/
structure AutoScalingConfig where
  Terminate : Option (List (String × Int))
  Stop : Option (List String)
  deriving DecidableEq, Repr

/-- The struct `Config`: the flywheel config file. -/
structure Config where
  Vhosts : Option (List (String × String))
  Region : String
  Endpoint : String
  Instances : Option (List String)
  HcInterval : Duration
  IdleTimeout : Duration
  AutoScaling : AutoScalingConfig
  deriving DecidableEq, Repr

/-- The zero value `Config{}`. -/
def Config.zero : Config :=
  { Vhosts := none, Region := "", Endpoint := "", Instances := none,
    HcInterval := 0, IdleTimeout := 0,
    AutoScaling := { Terminate := none, Stop := none } }

/-! ## `Config.Validate` -/

/-- Method `func (c *Config) Validate() error`: the returned error and the final
state of the receiver. -/
def Validate (c : Config) : GoError × Config :=
  if len c.Instances == 0 && len c.AutoScaling.Stop == 0 &&
      len c.AutoScaling.Terminate == 0 then
    (some "No instances or asg configured", c)
  else if strLen c.Endpoint == 0 then
    (some "No endpoint configured", c)
  else
    let c := if c.HcInterval ≤ 0 then { c with HcInterval := 30 * Second } else c
    let c := if c.IdleTimeout ≤ 0 then { c with IdleTimeout := 3 * Hour } else c
    let c := if c.Region = "" then { c with Region := "ap-southeast-2" } else c
    (none, c)

/-- The configuration `json.Unmarshal` builds from `{"instances":[]}`: an empty
(non-nil) instance list and every other field at its zero value. -/
def emptyInstancesConfig : Config :=
  { Config.zero with Instances := some [] }

/-- A configuration with one instance and no endpoint. -/
def noEndpointConfig : Config :=
  { Config.zero with Instances := some ["i-1"] }

/-- A configuration with a target, an endpoint and nothing else set. -/
def minimalConfig : Config :=
  { Config.zero with Endpoint := "http://x", Instances := some ["i-1", "i-2"] }

/-- The three target collections are all empty: the condition of the first
check of `Validate`. -/
def noTargets (c : Config) : Prop :=
  len c.Instances = 0 ∧ len c.AutoScaling.Stop = 0 ∧ len c.AutoScaling.Terminate = 0

instance (c : Config) : Decidable (noTargets c) := by
  unfold noTargets; infer_instance

/-! ## `Config.EndpointURL` -/

/-- Method `func (c *Config) EndpointURL() (*url.URL, error)`. `parse` stands for
`url.Parse` of Go's `net/url`, which is not part of this repository. -/
def EndpointURL {URL : Type} (parse : String → Except String URL) (c : Config) :
    Except String URL :=
  parse c.Endpoint

/-- A URL parser that accepts exactly the texts starting with `http://`; it
stands in for `url.Parse` where a concrete parser is needed. -/
def httpOnlyParse (s : String) : Except String String :=
  if "http://".toList.isPrefixOf s.toList then .ok s else .error "missing protocol scheme"

/-! ## `Config.AwsInstances` -/

/-- A `*string` that points into the backing array of `Config.Instances`: the
address of the element at index `idx`. -/
structure StringPtr where
  idx : Nat
  deriving DecidableEq, Repr

/-- Reading through a pointer into `c.Instances` (`*p`); `none` when the
pointer is outside the slice. -/
def StringPtr.load (c : Config) (p : StringPtr) : Option String :=
  (c.Instances.getD [])[p.idx]?

/-- Method `func (c *Config) AwsInstances() []*string`: `make` gives a slice of
`len(c.Instances)` nil pointers, and the loop stores `&c.Instances[i]` at each
index of the range. -/
def AwsInstances (c : Config) : Option (List (Option StringPtr)) :=
  let awsIds : List (Option StringPtr) := List.replicate (len c.Instances) none
  some ((List.range (len c.Instances)).foldl
    (fun awsIds i => awsIds.set i (some ⟨i⟩)) awsIds)

/-! ## `Duration.UnmarshalText` and `time.ParseDuration`

`UnmarshalText` hands its argument to `time.ParseDuration` of Go's standard
library, embedded here with its helpers `leadingInt`, `leadingFraction` and
`unitMap`. -/

/-- The text of a Go string, or the content of a `[]byte`: a sequence of bytes. -/
abbrev Bytes := List UInt8

/-- The UTF-8 bytes of a string literal. -/
def utf8 (s : String) : Bytes := s.toList.flatMap String.utf8EncodeChar

/-- The errors of `time.ParseDuration`, by the message they carry. -/
inductive DurationError where
  /-- Message `"time: invalid duration " + quote(orig)`. -/
  | invalid (orig : Bytes)
  /-- Message `"time: missing unit in duration " + quote(orig)`. -/
  | missingUnit (orig : Bytes)
  /-- Message `"time: unknown unit " + quote(u) + " in duration " + quote(orig)`. -/
  | unknownUnit (u orig : Bytes)
  deriving DecidableEq, Repr

/-- The byte is an ASCII digit: `'0' <= c && c <= '9'`. -/
def isDigit (c : UInt8) : Bool := 48 ≤ c && c ≤ 57

/-- The byte may start or continue a number: `c == '.' || '0' <= c && c <= '9'`. -/
def isNumByte (c : UInt8) : Bool := c == 46 || (48 ≤ c && c ≤ 57)

/-- Function `leadingInt` of Go's `time` package: consumes the leading `[0-9]*`
of `s`, accumulating into `x` (a `uint64`); `none` is `errLeadingInt`
(overflow). -/
def leadingInt : Bytes → Nat → Option (Nat × Bytes)
  | [], x => some (x, [])
  | c :: s, x =>
    if c < 48 || c > 57 then some (x, c :: s)
    else if x > 2 ^ 63 / 10 then none
    else
      let x := (x * 10 + c.toNat - 48) % 2 ^ 64
      if x > 2 ^ 63 then none else leadingInt s x

/-- Table `unitMap` of Go's `time` package: nanoseconds per unit. -/
def unitMap (u : Bytes) : Option Nat :=
  if u = [0x6e, 0x73] then some 1                       -- "ns"
  else if u = [0x75, 0x73] then some 1000               -- "us"
  else if u = [0xc2, 0xb5, 0x73] then some 1000         -- "µs", U+00B5
  else if u = [0xce, 0xbc, 0x73] then some 1000         -- "μs", U+03BC
  else if u = [0x6d, 0x73] then some 1000000            -- "ms"
  else if u = [0x73] then some 1000000000               -- "s"
  else if u = [0x6d] then some 60000000000              -- "m"
  else if u = [0x68] then some 3600000000000            -- "h"
  else none

/-! ### `float64` arithmetic

`time.ParseDuration` computes the share of a fraction in `float64`: the
`scale` of `leadingFraction` is multiplied by ten once per accepted digit
(leading zeros included, so it is inexact from `10^23` on and `+Inf` after some
three hundred digits), and the fraction is turned into nanoseconds by
`uint64(float64(f) * (float64(unit) / scale))`. The values are never negative;
every operation rounds its exact result to nearest, ties to even (IEEE 754
binary64). -/

/-- A `float64` that is not negative: a finite value (zero, subnormal or
normal) kept as the exact rational `num / den` it stands for, `+Inf`, or
`NaN`. -/
inductive Float64 where
  | finite (num den : Nat)
  | inf
  | nan
  deriving Repr

/-- The number of binary digits of `n`: `bitLength n = k` with
`2^(k-1) <= n < 2^k` for positive `n`; the first argument bounds the number of
halvings. -/
def bitLengthAux : Nat → Nat → Nat
  | 0, _ => 0
  | fuel + 1, n => if n = 0 then 0 else bitLengthAux fuel (n / 2) + 1

/-- The number of binary digits of `n`. -/
def bitLength (n : Nat) : Nat := bitLengthAux n n

/-- Rounding of the exact non-negative rational `num / den` to `float64`, to
nearest and ties to even: the significand has 53 bits, the exponent of its
last bit is at least `-1074` (below `2^-1022` the value is subnormal and may
round to zero), and a rounded value of `2^1024` or more is `+Inf`. -/
def roundFloat64 (num den : Nat) : Float64 :=
  if num = 0 ∨ den = 0 then .finite 0 1
  else
    -- e₁ is the exponent with 2^52 <= num / (den * 2^e₁) < 2^53
    let e₀ : Int := (bitLength num : Int) - (bitLength den : Int) - 52
    let scaled (e : Int) : Nat × Nat :=
      if 0 ≤ e then (num, den * 2 ^ e.toNat) else (num * 2 ^ (-e).toNat, den)
    let e₁ : Int := if (scaled e₀).1 / (scaled e₀).2 < 2 ^ 52 then e₀ - 1 else e₀
    -- subnormal values keep the exponent -1074
    let e : Int := if e₁ < -1074 then -1074 else e₁
    let n := (scaled e).1
    let dn := (scaled e).2
    let q := n / dn
    let r := n % dn
    let m := if 2 * r > dn ∨ (2 * r = dn ∧ q % 2 = 1) then q + 1 else q
    if 0 ≤ e then
      -- overflow: the rounded value has more than 1024 binary digits
      if bitLength (m * 2 ^ e.toNat) > 1024 then .inf else .finite (m * 2 ^ e.toNat) 1
    else .finite m (2 ^ (-e).toNat)

/-- The conversion `float64(x)` of a `uint64`. -/
def Float64.ofUint64 (x : Nat) : Float64 := roundFloat64 x 1

/-- The `float64` product `a * b`. -/
def Float64.mul : Float64 → Float64 → Float64
  | .finite a b, .finite c d => roundFloat64 (a * c) (b * d)
  | .finite a _, .inf => if a = 0 then .nan else .inf
  | .inf, .finite c _ => if c = 0 then .nan else .inf
  | .inf, .inf => .inf
  | _, _ => .nan

/-- The `float64` quotient `a / b`. -/
def Float64.div : Float64 → Float64 → Float64
  | .finite a b, .finite c d =>
    if c = 0 then (if a = 0 then .nan else .inf) else roundFloat64 (a * d) (b * c)
  | .finite _ _, .inf => .finite 0 1
  | .inf, .finite _ _ => .inf
  | _, _ => .nan

/-- The conversion `uint64(x)` of a `float64`: the integer part. For a value
that `uint64` cannot hold, for `+Inf` and for `NaN` Go leaves the result to the
implementation, and `2^63` stands for it here; `time.ParseDuration` converts
only values below `2^64`. -/
def Float64.toUint64 : Float64 → Nat
  | .finite a b => if a / b < 2 ^ 64 then a / b else 2 ^ 63
  | .inf => 2 ^ 63
  | .nan => 2 ^ 63

/-- Function `leadingFraction` of Go's `time` package: consumes the leading
`[0-9]*` of `s`; once the accumulator `x` would overflow, further digits are
skipped. The `scale` is a `float64`, multiplied by ten for every accepted
digit. -/
def leadingFraction : Bytes → Nat → Float64 → Bool → Nat × Float64 × Bytes
  | [], x, scale, _ => (x, scale, [])
  | c :: s, x, scale, overflow =>
    if c < 48 || c > 57 then (x, scale, c :: s)
    else if overflow then leadingFraction s x scale overflow
    else if x > (2 ^ 63 - 1) / 10 then leadingFraction s x scale true
    else
      let y := (x * 10 + c.toNat - 48) % 2 ^ 64
      if y > 2 ^ 63 then leadingFraction s x scale true
      else leadingFraction s y (scale.mul (.finite 10 1)) overflow

/-- The value `uint64(float64(f) * (float64(unit) / scale))`: the fraction's
share of nanoseconds. -/
def fracNanos (f unit : Nat) (scale : Float64) : Nat :=
  ((Float64.ofUint64 f).mul ((Float64.ofUint64 unit).div scale)).toUint64

/-- The step `Consume (\.[0-9]*)?` of a round of `time.ParseDuration` on the
rest `s₁` left by `leadingInt`: the fraction `f`, its `scale`, `post` (whether
a digit followed the period) and the new rest. Without a period `f = 0`,
`scale = 1`, `post = false` and the rest is `s₁`. -/
def parseFraction (s₁ : Bytes) : Nat × Float64 × Bool × Bytes :=
  match s₁ with
  | c₁ :: t =>
    if c₁ == 46 then
      let r := leadingFraction t 0 (.finite 1 1) false
      (r.1, r.2.1, t.length != r.2.2.length, r.2.2)
    else (0, .finite 1 1, false, s₁)
  | [] => (0, .finite 1 1, false, s₁)

/-- One round of the loop of `time.ParseDuration`: consumes one
`number unit` group from the non-empty rest `c :: s'` of the text and adds its
nanoseconds to `d` (a `uint64`); gives the new `d` and the new rest. -/
def parseGroup (orig : Bytes) (c : UInt8) (s' : Bytes) (d : Nat) :
    Except DurationError (Nat × Bytes) :=
  let s := c :: s'
  -- The next character must be [0-9.]
  if !(c == 46 || (48 ≤ c && c ≤ 57)) then .error (.invalid orig)
  else
    -- Consume [0-9]*
    match leadingInt s 0 with
    | none => .error (.invalid orig)
    | some (v, s₁) =>
      let pre := s.length != s₁.length
      -- Consume (\.[0-9]*)?
      let frac := parseFraction s₁
      let f := frac.1
      let scale := frac.2.1
      let post := frac.2.2.1
      let s₂ := frac.2.2.2
      if !pre && !post then .error (.invalid orig)
      else
        -- Consume unit.
        let u := s₂.takeWhile (fun c => !isNumByte c)
        let s₃ := s₂.dropWhile (fun c => !isNumByte c)
        if u.length == 0 then .error (.missingUnit orig)
        else
          match unitMap u with
          | none => .error (.unknownUnit u orig)
          | some unit =>
            if v > 2 ^ 63 / unit then .error (.invalid orig)
            else
              let v := (v * unit) % 2 ^ 64
              let v := if f > 0 then (v + fracNanos f unit scale) % 2 ^ 64 else v
              if f > 0 && v > 2 ^ 63 then .error (.invalid orig)
              else
                let d := (d + v) % 2 ^ 64
                if d > 2 ^ 63 then .error (.invalid orig)
                else .ok (d, s₃)

/-- The loop `for s != ""` of `time.ParseDuration` over the rest `s` of the
text, `d` being the nanoseconds accumulated so far. `none` only when `fuel`
rounds did not exhaust `s`; every round shortens `s`, so `s.length` rounds
always do (`parseLoop_fuel`). -/
def parseLoop (orig : Bytes) : Nat → Bytes → Nat → Option (Except DurationError Nat)
  | _, [], d => some (.ok d)
  | 0, _ :: _, _ => none
  | fuel + 1, c :: s', d =>
    match parseGroup orig c s' d with
    | .error e => some (.error e)
    | .ok (d, s₃) => parseLoop orig fuel s₃ d

/-- The `int64` with the bits of `n` (two's complement wrap-around). -/
def toInt64 (n : Int) : Int := (n + 2 ^ 63) % 2 ^ 64 - 2 ^ 63

/-- Function `time.ParseDuration` of Go's standard library, on the bytes of its
argument. -/
def ParseDuration (orig : Bytes) : Except DurationError Duration :=
  -- Consume [-+]?
  let signed : Bool × Bytes :=
    match orig with
    | c :: t => if c == 45 || c == 43 then (c == 45, t) else (false, orig)
    | [] => (false, orig)
  let neg := signed.1
  let s := signed.2
  -- Special case: if all that is left is "0", this is zero.
  if s = [48] then .ok 0
  else if s = [] then .error (.invalid orig)
  else
    match parseLoop orig s.length s 0 with
    | none => .error (.invalid orig) -- not reached: `parseLoop_fuel`
    | some (.error e) => .error e
    | some (.ok d) =>
      if neg then .ok (toInt64 (-(toInt64 d)))
      else if d > 2 ^ 63 - 1 then .error (.invalid orig)
      else .ok (toInt64 d)

/-- Method `func (d *Duration) UnmarshalText(b []byte) error`: the returned error and
the final value of `*d`. -/
def UnmarshalText (d : Duration) (b : Bytes) : Option DurationError × Duration :=
  match ParseDuration b with
  | .error err => (some err, d)
  | .ok v => (none, v)


/-- The trailing unit text of `s`: its longest suffix without a digit or a
period. -/
def unitSuffix (s : Bytes) : Bytes :=
  (s.reverse.takeWhile (fun c => !isNumByte c)).reverse

/-! ## `Config.Parse` -/

/-- An `io.Reader` as `ioutil.ReadAll` sees it: the bytes it delivers and the
error, if any, that ends the reading. -/
structure Reader where
  data : Bytes
  err : GoError

/-- A reader over a byte buffer: it delivers the buffer and no error. -/
def Reader.ofBytes (buf : Bytes) : Reader := { data := buf, err := none }

/-- Function `ioutil.ReadAll`. -/
def ReadAll (rd : Reader) : Bytes × GoError := (rd.data, rd.err)

/-- Method `func (c *Config) Parse(rd io.Reader) error`: the returned error and the
final state of the receiver. `unmarshal in c` stands for `json.Unmarshal(in, c)`
of Go's `encoding/json`, which is not part of this repository: it gives the
error and the state of `c` after decoding. -/
def Parse (unmarshal : Bytes → Config → GoError × Config) (c : Config) (rd : Reader) :
    GoError × Config :=
  match ReadAll rd with
  | (_, some err) => (some err, c)
  | (input, none) =>
    match unmarshal input c with
    | (some err, c) => (some ("Could not decode json: " ++ err), c)
    | (none, c) =>
      match Validate c with
      | (some err, c) => (some ("Invalid configuration: " ++ err), c)
      | (none, c) => (none, c)

/-- The scenario document
`{"endpoint":"http://x","instances":["i-1","i-2"]}`. -/
def scenarioDocument : Bytes :=
  utf8 "\x7b\"endpoint\":\"http://x\",\"instances\":[\"i-1\",\"i-2\"]\x7d"

/-- A decoder that knows the scenario document only: it decodes it to its two
fields and rejects every other input. It stands in for `json.Unmarshal` where
a concrete decoder is needed. -/
def scenarioUnmarshal (input : Bytes) (c : Config) : GoError × Config :=
  if input = scenarioDocument then
    (none, { c with Endpoint := "http://x", Instances := some ["i-1", "i-2"] })
  else (some "unexpected end of JSON input", c)

/-! ## Theorems -/

/-! ### Basic facts -/

theorem strLen_eq_zero_iff (s : String) : strLen s = 0 ↔ s = "" := by
  obtain ⟨cs⟩ := s
  cases cs with
  | nil => simp [strLen, String.utf8ByteSize, String.utf8ByteSize.go]
  | cons a as =>
    have h := Char.utf8Size_pos a
    have hne : (String.mk (a :: as)) ≠ "" := by
      intro h'
      have := congrArg String.data h'
      simp at this
    simp only [strLen, String.utf8ByteSize, String.utf8ByteSize.go, hne, iff_false]
    omega

theorem len_eq_zero_iff {α : Type} (xs : Option (List α)) :
    len xs = 0 ↔ xs = none ∨ xs = some [] := by
  cases xs with
  | none => simp [len]
  | some l => cases l <;> simp [len]

theorem Validate_of_noTargets (c : Config) (h : noTargets c) :
    Validate c = (some "No instances or asg configured", c) := by
  obtain ⟨h1, h2, h3⟩ := h
  simp [Validate, h1, h2, h3]

theorem Validate_of_noEndpoint (c : Config) (h : ¬ noTargets c) (he : c.Endpoint = "") :
    Validate c = (some "No endpoint configured", c) := by
  have h0 : strLen c.Endpoint = 0 := (strLen_eq_zero_iff _).2 he
  have hc : ¬ (len c.Instances = 0 ∧ len c.AutoScaling.Stop = 0 ∧
      len c.AutoScaling.Terminate = 0) := h
  simp only [Validate, Bool.and_eq_true, beq_iff_eq, and_assoc, hc, h0, if_true, if_false]

theorem Validate_of_ok (c : Config) (h : ¬ noTargets c) (he : c.Endpoint ≠ "") :
    Validate c = (none,
      { c with
        HcInterval := if c.HcInterval ≤ 0 then 30 * Second else c.HcInterval
        IdleTimeout := if c.IdleTimeout ≤ 0 then 3 * Hour else c.IdleTimeout
        Region := if c.Region = "" then "ap-southeast-2" else c.Region }) := by
  have h0 : ¬ strLen c.Endpoint = 0 := fun h' => he ((strLen_eq_zero_iff _).1 h')
  have hc : ¬ (len c.Instances = 0 ∧ len c.AutoScaling.Stop = 0 ∧
      len c.AutoScaling.Terminate = 0) := h
  simp only [Validate, Bool.and_eq_true, beq_iff_eq, and_assoc, hc, h0, if_false]
  by_cases h1 : c.HcInterval ≤ 0 <;> by_cases h2 : c.IdleTimeout ≤ 0 <;>
    by_cases h3 : c.Region = "" <;> simp [h1, h2, h3]

/-! ### `Validate`: the two checks -/

/-- C1: `Validate` fails with "No instances or asg configured" if and only if
`Instances`, `AutoScaling.Stop` and `AutoScaling.Terminate` are all empty; the
check comes first, so with no targets and an empty `Endpoint` the error is the
no-targets one and not the missing-endpoint one, as for the configuration
decoded from `{"instances":[]}`. -/
theorem Validate_noTargets_iff (c : Config) :
    ((Validate c).1 = some "No instances or asg configured" ↔
      (len c.Instances = 0 ∧ len c.AutoScaling.Stop = 0 ∧
        len c.AutoScaling.Terminate = 0)) ∧
    ((len c.Instances = 0 ∧ len c.AutoScaling.Stop = 0 ∧
        len c.AutoScaling.Terminate = 0) → c.Endpoint = "" →
      (Validate c).1 = some "No instances or asg configured" ∧
      (Validate c).1 ≠ some "No endpoint configured") ∧
    (emptyInstancesConfig.Endpoint = "" ∧
      (Validate emptyInstancesConfig).1 = some "No instances or asg configured") := by
  refine ⟨⟨fun h => ?_, fun h => ?_⟩, fun h _ => ?_, rfl, ?_⟩
  · by_contra hn
    by_cases he : c.Endpoint = ""
    · rw [Validate_of_noEndpoint c hn he] at h
      simp at h
    · rw [Validate_of_ok c hn he] at h
      simp at h
  · rw [Validate_of_noTargets c h]
  · rw [Validate_of_noTargets c h]
    exact ⟨rfl, by simp⟩
  · rw [Validate_of_noTargets _ (by decide)]

/-- C2 (as stated, refuted): the configuration decoded from `{"instances":[]}`
has an empty `Endpoint`, yet `Validate` fails with the no-targets error and not
with "No endpoint configured". -/
theorem Validate_emptyEndpoint_noTargets_counterexample :
    emptyInstancesConfig.Endpoint = "" ∧
    (Validate emptyInstancesConfig).1 = some "No instances or asg configured" ∧
    (Validate emptyInstancesConfig).1 ≠ some "No endpoint configured" := by
  rw [Validate_of_noTargets _ (by decide)]
  exact ⟨rfl, rfl, by decide⟩

/-- C2 (amended): for every Config whose `Endpoint` is empty, `Validate` fails;
the error is "No endpoint configured" when at least one of `Instances`,
`AutoScaling.Stop`, `AutoScaling.Terminate` is non-empty (whatever the other
fields hold), and the no-targets error when all three are empty. -/
theorem Validate_emptyEndpoint (c : Config) (he : c.Endpoint = "") :
    (Validate c).1 ≠ none ∧
    ((0 < len c.Instances ∨ 0 < len c.AutoScaling.Stop ∨
        0 < len c.AutoScaling.Terminate) →
      (Validate c).1 = some "No endpoint configured") ∧
    ((len c.Instances = 0 ∧ len c.AutoScaling.Stop = 0 ∧
        len c.AutoScaling.Terminate = 0) →
      (Validate c).1 = some "No instances or asg configured") := by
  refine ⟨?_, fun h => ?_, fun h => ?_⟩
  · by_cases hn : noTargets c
    · rw [Validate_of_noTargets c hn]; simp
    · rw [Validate_of_noEndpoint c hn he]; simp
  · have hn : ¬ noTargets c := by
      unfold noTargets; omega
    rw [Validate_of_noEndpoint c hn he]
  · rw [Validate_of_noTargets c h]

theorem Validate_emptyEndpoint_witness :
    noEndpointConfig.Endpoint = "" ∧ 0 < len noEndpointConfig.Instances ∧
    (Validate noEndpointConfig).1 = some "No endpoint configured" :=
  ⟨rfl, by decide,
    (Validate_emptyEndpoint noEndpointConfig rfl).2.1 (Or.inl (by decide))⟩

/-! ### `Validate`: the defaults -/

/-- C3: with a non-empty `Endpoint` and at least one of `Instances`,
`AutoScaling.Stop`, `AutoScaling.Terminate` non-empty, `Validate` succeeds, and
afterwards `HcInterval` is 30 s (30,000,000,000 ns) if it was `<= 0` and its
original value otherwise, `IdleTimeout` is 3 h (10,800,000,000,000 ns) if it was
`<= 0` and its original value otherwise, and `Region` is "ap-southeast-2" if it
was empty and its original value otherwise. -/
theorem Validate_succeeds_with_defaults (c : Config) (he : c.Endpoint ≠ "")
    (ht : 0 < len c.Instances ∨ 0 < len c.AutoScaling.Stop ∨
      0 < len c.AutoScaling.Terminate) :
    (Validate c).1 = none ∧
    (Validate c).2.HcInterval =
      (if c.HcInterval ≤ 0 then 30000000000 else c.HcInterval) ∧
    (Validate c).2.IdleTimeout =
      (if c.IdleTimeout ≤ 0 then 10800000000000 else c.IdleTimeout) ∧
    (Validate c).2.Region =
      (if c.Region = "" then "ap-southeast-2" else c.Region) := by
  have hn : ¬ noTargets c := by
    unfold noTargets; omega
  rw [Validate_of_ok c hn he]
  refine ⟨rfl, ?_, ?_, rfl⟩
  · show (if c.HcInterval ≤ 0 then 30 * Second else c.HcInterval) = _
    norm_num [Second, Millisecond, Microsecond, Nanosecond]
  · show (if c.IdleTimeout ≤ 0 then 3 * Hour else c.IdleTimeout) = _
    norm_num [Hour, Minute, Second, Millisecond, Microsecond, Nanosecond]

theorem Validate_succeeds_with_defaults_witness :
    minimalConfig.Endpoint ≠ "" ∧ 0 < len minimalConfig.Instances ∧
    (Validate minimalConfig).1 = none ∧
    (Validate minimalConfig).2.HcInterval = 30000000000 ∧
    (Validate minimalConfig).2.IdleTimeout = 10800000000000 ∧
    (Validate minimalConfig).2.Region = "ap-southeast-2" :=
  ⟨by decide, by decide,
    Validate_succeeds_with_defaults minimalConfig (by decide) (Or.inl (by decide))⟩

/-! ### `Validate`: what it reads and what it writes -/

/-- C9: `Validate` looks at `Endpoint` only for emptiness: two Configs that
differ only in `Endpoint`, both non-empty, get the same outcome (success or the
same error) and the same `HcInterval`, `IdleTimeout` and `Region`; hence a
Config with targets and a non-empty `Endpoint` passes `Validate` even when
`EndpointURL` rejects that `Endpoint` as a URL (whatever URL parser is used). -/
theorem Validate_endpoint_only_emptiness (c : Config) (e₁ e₂ : String)
    (h₁ : e₁ ≠ "") (h₂ : e₂ ≠ "") :
    (Validate { c with Endpoint := e₁ }).1 = (Validate { c with Endpoint := e₂ }).1 ∧
    (Validate { c with Endpoint := e₁ }).2.HcInterval =
      (Validate { c with Endpoint := e₂ }).2.HcInterval ∧
    (Validate { c with Endpoint := e₁ }).2.IdleTimeout =
      (Validate { c with Endpoint := e₂ }).2.IdleTimeout ∧
    (Validate { c with Endpoint := e₁ }).2.Region =
      (Validate { c with Endpoint := e₂ }).2.Region ∧
    ((0 < len c.Instances ∨ 0 < len c.AutoScaling.Stop ∨
        0 < len c.AutoScaling.Terminate) →
      ∀ (URL : Type) (parse : String → Except String URL),
        (∃ err, EndpointURL parse { c with Endpoint := e₁ } = .error err) →
        (Validate { c with Endpoint := e₁ }).1 = none) := by
  by_cases hn : noTargets c
  · have hn₁ : noTargets { c with Endpoint := e₁ } := hn
    have hn₂ : noTargets { c with Endpoint := e₂ } := hn
    rw [Validate_of_noTargets _ hn₁, Validate_of_noTargets _ hn₂]
    refine ⟨rfl, rfl, rfl, rfl, fun ht => ?_⟩
    unfold noTargets at hn
    omega
  · have hn₁ : ¬ noTargets { c with Endpoint := e₁ } := hn
    have hn₂ : ¬ noTargets { c with Endpoint := e₂ } := hn
    rw [Validate_of_ok _ hn₁ h₁, Validate_of_ok _ hn₂ h₂]
    exact ⟨rfl, rfl, rfl, rfl, fun _ _ _ _ => rfl⟩

theorem Validate_endpoint_only_emptiness_witness :
    (Validate { minimalConfig with Endpoint := "http://x" }).1 =
      (Validate { minimalConfig with Endpoint := "::not a url::" }).1 ∧
    EndpointURL httpOnlyParse { minimalConfig with Endpoint := "::not a url::" } =
      .error "missing protocol scheme" ∧
    (Validate { minimalConfig with Endpoint := "::not a url::" }).1 = none :=
  ⟨((Validate_endpoint_only_emptiness minimalConfig "::not a url::" "http://x"
      (by decide) (by decide)).1).symm,
    rfl,
    (Validate_endpoint_only_emptiness minimalConfig "::not a url::" "http://x"
      (by decide) (by decide)).2.2.2.2 (Or.inl (by decide)) String httpOnlyParse
      ⟨_, rfl⟩⟩

/-- C10: `Validate` writes only the three defaulted fields and only after both
checks pass: `Vhosts`, `Endpoint`, `Instances` and `AutoScaling` are never
changed, and whenever `Validate` returns an error the whole Config is unchanged
(no default is injected into a rejected configuration). -/
theorem Validate_frame (c : Config) :
    (Validate c).2.Vhosts = c.Vhosts ∧
    (Validate c).2.Endpoint = c.Endpoint ∧
    (Validate c).2.Instances = c.Instances ∧
    (Validate c).2.AutoScaling = c.AutoScaling ∧
    ((Validate c).1 ≠ none → (Validate c).2 = c) := by
  by_cases hn : noTargets c
  · rw [Validate_of_noTargets c hn]
    exact ⟨rfl, rfl, rfl, rfl, fun _ => rfl⟩
  · by_cases he : c.Endpoint = ""
    · rw [Validate_of_noEndpoint c hn he]
      exact ⟨rfl, rfl, rfl, rfl, fun _ => rfl⟩
    · rw [Validate_of_ok c hn he]
      exact ⟨rfl, rfl, rfl, rfl, fun h => absurd rfl h⟩

/-! ### `AwsInstances` -/

theorem foldl_set_range {α : Type} (g : Nat → α) (a : α) (n k : Nat) (hk : k ≤ n) :
    (List.range k).foldl (fun l i => l.set i (g i)) (List.replicate n a) =
      (List.range k).map g ++ List.replicate (n - k) a := by
  induction k with
  | zero => simp
  | succ k ih =>
    rw [List.range_succ, List.foldl_append, ih (by omega)]
    have hlen : ((List.range k).map g).length = k := by simp
    have hrep : List.replicate (n - k) a = a :: List.replicate (n - (k + 1)) a := by
      rw [← List.replicate_succ]
      congr 1
      omega
    simp only [List.foldl_cons, List.foldl_nil, List.map_append, List.map_cons, List.map_nil]
    rw [hrep, List.set_append_right _ _ (by omega)]
    simp [hlen]

theorem AwsInstances_eq (c : Config) :
    AwsInstances c =
      some ((List.range (len c.Instances)).map (fun i => some (StringPtr.mk i))) := by
  unfold AwsInstances
  simp only
  rw [foldl_set_range (fun i => some (StringPtr.mk i)) none _ _ (le_refl _)]
  simp

/-- C5: `AwsInstances` returns a list of `len(Instances)` pointers whose element
`i`, for every `i < len(Instances)`, is the address of `Instances[i]` (reading
through it yields `Instances[i]`), so the view has the size and order of
`Instances`; for an empty or nil `Instances` it is the empty list. -/
theorem AwsInstances_view (c : Config) :
    ∃ awsIds, AwsInstances c = some awsIds ∧
      awsIds.length = len c.Instances ∧
      (∀ i, i < len c.Instances →
        ∃ p v, awsIds[i]? = some (some p) ∧ p = StringPtr.mk i ∧
          (c.Instances.getD [])[i]? = some v ∧ p.load c = some v) ∧
      ((c.Instances = none ∨ c.Instances = some []) → awsIds = []) := by
  refine ⟨_, AwsInstances_eq c, by simp, fun i hi => ?_, fun h => ?_⟩
  · have hlt : i < (c.Instances.getD []).length := by
      cases hI : c.Instances with
      | none => simp [hI, len] at hi
      | some xs => simpa [hI, len] using hi
    refine ⟨StringPtr.mk i, (c.Instances.getD [])[i], ?_, rfl, ?_, ?_⟩
    · simp [List.getElem?_range, hi]
    · exact List.getElem?_eq_getElem hlt
    · simp [StringPtr.load, List.getElem?_eq_getElem hlt]
  · have h0 : len c.Instances = 0 := (len_eq_zero_iff _).2 h
    simp [h0]

theorem AwsInstances_view_witness :
    AwsInstances minimalConfig = some [some (StringPtr.mk 0), some (StringPtr.mk 1)] ∧
    (StringPtr.mk 1).load minimalConfig = some "i-2" ∧
    ∃ awsIds, AwsInstances minimalConfig = some awsIds ∧ awsIds.length = 2 := by
  obtain ⟨awsIds, h, hlen, -, -⟩ := AwsInstances_view minimalConfig
  exact ⟨by decide, by decide, awsIds, h, hlen⟩

/-! ### `Parse` -/

/-- C4: `Parse` on a fresh Config and a byte buffer is decode-then-validate,
whatever `json.Unmarshal` does: a decoding error `e` comes back as
"Could not decode json: " ++ `e`; a `Validate` error `e` on the decoded Config
as "Invalid configuration: " ++ `e`; otherwise `Parse` succeeds and leaves the
decoded Config with `Validate`'s defaults applied. When the decoder reads the
scenario document as its two fields, `Parse` yields Region "ap-southeast-2",
HcInterval 30 s, IdleTimeout 3 h and Instances ["i-1", "i-2"]. -/
theorem Parse_decode_then_validate (unmarshal : Bytes → Config → GoError × Config)
    (buf : Bytes) :
    (∀ e c₁, unmarshal buf Config.zero = (some e, c₁) →
      (Parse unmarshal Config.zero (Reader.ofBytes buf)).1 =
        some ("Could not decode json: " ++ e)) ∧
    (∀ e c₁, unmarshal buf Config.zero = (none, c₁) → (Validate c₁).1 = some e →
      (Parse unmarshal Config.zero (Reader.ofBytes buf)).1 =
        some ("Invalid configuration: " ++ e)) ∧
    (∀ c₁, unmarshal buf Config.zero = (none, c₁) → (Validate c₁).1 = none →
      Parse unmarshal Config.zero (Reader.ofBytes buf) =
        (none,
          { c₁ with
            HcInterval := if c₁.HcInterval ≤ 0 then 30000000000 else c₁.HcInterval
            IdleTimeout := if c₁.IdleTimeout ≤ 0 then 10800000000000 else c₁.IdleTimeout
            Region := if c₁.Region = "" then "ap-southeast-2" else c₁.Region })) ∧
    (unmarshal scenarioDocument Config.zero =
        (none, { Config.zero with Endpoint := "http://x", Instances := some ["i-1", "i-2"] }) →
      Parse unmarshal Config.zero (Reader.ofBytes scenarioDocument) =
        (none,
          { Vhosts := none, Region := "ap-southeast-2", Endpoint := "http://x",
            Instances := some ["i-1", "i-2"], HcInterval := 30000000000,
            IdleTimeout := 10800000000000,
            AutoScaling := { Terminate := none, Stop := none } })) := by
  refine ⟨fun e c₁ hu => ?_, fun e c₁ hu hv => ?_, fun c₁ hu hv => ?_, fun hdoc => ?_⟩
  · simp [Parse, ReadAll, Reader.ofBytes, hu]
  · cases hV : Validate c₁ with
    | mk err c₂ =>
      rw [hV] at hv
      simp only at hv
      subst hv
      simp [Parse, ReadAll, Reader.ofBytes, hu, hV]
  · by_cases hn : noTargets c₁
    · rw [Validate_of_noTargets c₁ hn] at hv
      simp at hv
    · by_cases he : c₁.Endpoint = ""
      · rw [Validate_of_noEndpoint c₁ hn he] at hv
        simp at hv
      · simp only [Parse, ReadAll, Reader.ofBytes, hu, Validate_of_ok c₁ hn he]
        norm_num [Hour, Minute, Second, Millisecond, Microsecond, Nanosecond]
  · have hn : ¬ noTargets
        { Config.zero with Endpoint := "http://x", Instances := some ["i-1", "i-2"] } := by
      decide
    simp only [Parse, ReadAll, Reader.ofBytes, hdoc, Validate_of_ok _ hn (by decide)]
    simp [Config.zero, Hour, Minute, Second, Millisecond, Microsecond, Nanosecond]

theorem Parse_decode_then_validate_witness :
    Parse scenarioUnmarshal Config.zero (Reader.ofBytes scenarioDocument) =
      (none,
        { Vhosts := none, Region := "ap-southeast-2", Endpoint := "http://x",
          Instances := some ["i-1", "i-2"], HcInterval := 30000000000,
          IdleTimeout := 10800000000000,
          AutoScaling := { Terminate := none, Stop := none } }) ∧
    (Parse scenarioUnmarshal Config.zero (Reader.ofBytes (utf8 "x"))).1 =
      some "Could not decode json: unexpected end of JSON input" :=
  ⟨(Parse_decode_then_validate scenarioUnmarshal scenarioDocument).2.2.2
      (by simp [scenarioUnmarshal]),
    (Parse_decode_then_validate scenarioUnmarshal (utf8 "x")).1
      "unexpected end of JSON input" Config.zero (by decide)⟩

/-! ### `time.ParseDuration`: its helpers and its loop -/

theorem isDigit_imp_isNumByte (c : UInt8) (h : ¬ (c < 48 || c > 57) = true) :
    isNumByte c = true := by
  simp only [Bool.or_eq_true, decide_eq_true_eq, not_or, UInt8.not_lt] at h
  simp only [isNumByte, Bool.or_eq_true, beq_iff_eq, Bool.and_eq_true, decide_eq_true_eq]
  exact Or.inr ⟨h.1, h.2⟩

theorem leadingInt_suffix : ∀ (s : Bytes) (x v : Nat) (r : Bytes),
    leadingInt s x = some (v, r) →
      ∃ ds, s = ds ++ r ∧ ∀ c ∈ ds, isNumByte c = true := by
  intro s
  induction s with
  | nil =>
    intro x v r h
    simp only [leadingInt, Option.some.injEq, Prod.mk.injEq] at h
    exact ⟨[], by simp [h.2], by simp⟩
  | cons c s ih =>
    intro x v r h
    rw [leadingInt] at h
    split at h
    · simp only [Option.some.injEq, Prod.mk.injEq] at h
      exact ⟨[], by simp [h.2], by simp⟩
    · rename_i hc
      split at h
      · cases h
      · simp only at h
        split at h
        · cases h
        · obtain ⟨ds, hds, hall⟩ := ih _ v r h
          refine ⟨c :: ds, by simp [hds], ?_⟩
          intro y hy
          rcases List.mem_cons.1 hy with rfl | hy
          · exact isDigit_imp_isNumByte _ hc
          · exact hall y hy

theorem leadingFraction_suffix : ∀ (s : Bytes) (x : Nat) (scale : Float64) (o : Bool),
    ∃ ds, s = ds ++ (leadingFraction s x scale o).2.2 ∧ ∀ c ∈ ds, isNumByte c = true := by
  intro s
  induction s with
  | nil => intro x scale o; exact ⟨[], by simp [leadingFraction], by simp⟩
  | cons c s ih =>
    intro x scale o
    rw [leadingFraction]
    split
    · exact ⟨[], by simp, by simp⟩
    · rename_i hc
      have key : ∀ x' scale' o', ∃ ds, c :: s = ds ++ (leadingFraction s x' scale' o').2.2 ∧
          ∀ y ∈ ds, isNumByte y = true := by
        intro x' scale' o'
        obtain ⟨ds, hds, hall⟩ := ih x' scale' o'
        refine ⟨c :: ds, by rw [List.cons_append, ← hds], ?_⟩
        intro y hy
        rcases List.mem_cons.1 hy with rfl | hy
        · exact isDigit_imp_isNumByte _ hc
        · exact hall y hy
      split
      · exact key _ _ _
      · split
        · exact key _ _ _
        · simp only
          split
          · exact key _ _ _
          · exact key _ _ _


theorem parseFraction_suffix (s₁ : Bytes) :
    ∃ fs, s₁ = fs ++ (parseFraction s₁).2.2.2 ∧ (∀ c ∈ fs, isNumByte c = true) ∧
      ((parseFraction s₁).2.2.1 = true → fs ≠ []) := by
  unfold parseFraction
  split
  · rename_i c₁ t
    split
    · rename_i hc
      obtain ⟨ds, hds, hall⟩ := leadingFraction_suffix t 0 (.finite 1 1) false
      refine ⟨c₁ :: ds, by rw [List.cons_append, ← hds], ?_, by simp⟩
      intro y hy
      rcases List.mem_cons.1 hy with rfl | hy
      · simp only [beq_iff_eq] at hc
        simp [isNumByte, hc]
      · exact hall y hy
    · exact ⟨[], by simp, by simp, by simp⟩
  · exact ⟨[], by simp, by simp, by simp⟩

theorem parseGroup_ok (orig : Bytes) (c : UInt8) (s' : Bytes) (d d' : Nat) (s₃ : Bytes)
    (h : parseGroup orig c s' d = .ok (d', s₃)) :
    ∃ np u unit, c :: s' = np ++ (u ++ s₃) ∧ np ≠ [] ∧ (∀ x ∈ np, isNumByte x = true) ∧
      u ≠ [] ∧ (∀ x ∈ u, isNumByte x = false) ∧ unitMap u = some unit ∧
      (∀ x ∈ s₃.head?, isNumByte x = true) ∧ d' ≤ 2 ^ 63 := by
  unfold parseGroup at h
  simp only at h
  split at h
  · cases h
  · split at h
    · cases h
    · rename_i v s₁ hli
      obtain ⟨ds, hds, hdsall⟩ := leadingInt_suffix _ _ _ _ hli
      obtain ⟨fs, hfs, hfsall, hpost⟩ := parseFraction_suffix s₁
      generalize parseFraction s₁ = frac at h hfs hpost
      obtain ⟨f, scale, post, s₂⟩ := frac
      simp only at h hfs hpost
      split at h
      · cases h
      · rename_i hpp
        split at h
        · cases h
        · rename_i hu
          split at h
          · cases h
          · rename_i unit hunit
            have fin : List.dropWhile (fun c => !isNumByte c) s₂ = s₃ → d' ≤ 2 ^ 63 →
                ∃ np u unit, c :: s' = np ++ (u ++ s₃) ∧ np ≠ [] ∧
                  (∀ x ∈ np, isNumByte x = true) ∧ u ≠ [] ∧
                  (∀ x ∈ u, isNumByte x = false) ∧ unitMap u = some unit ∧
                  (∀ x ∈ s₃.head?, isNumByte x = true) ∧ d' ≤ 2 ^ 63 := by
              intro hs₃ hd'
              refine ⟨ds ++ fs, s₂.takeWhile (fun c => !isNumByte c), unit, ?_, ?_, ?_, ?_, ?_,
                hunit, ?_, hd'⟩
              · rw [← hs₃, List.takeWhile_append_dropWhile, List.append_assoc, ← hfs, ← hds]
              · intro hnil
                simp only [List.append_eq_nil] at hnil
                obtain ⟨hds0, hfs0⟩ := hnil
                subst hds0
                simp only [List.nil_append] at hds
                have hpost' : post = false := by
                  cases post with
                  | false => rfl
                  | true => exact absurd hfs0 (hpost rfl)
                simp [hds, hpost'] at hpp
              · intro x hx
                rcases List.mem_append.1 hx with hx | hx
                · exact hdsall x hx
                · exact hfsall x hx
              · intro hnil
                simp [hnil] at hu
              · intro x hx
                have := List.mem_takeWhile_imp hx
                simpa using this
              · rw [← hs₃]
                intro x hx
                cases hdw : List.dropWhile (fun c => !isNumByte c) s₂ with
                | nil => simp [hdw] at hx
                | cons a as =>
                  simp only [hdw, List.head?_cons, Option.mem_def, Option.some.injEq] at hx
                  subst hx
                  have := List.head_dropWhile_not (fun c => !isNumByte c) s₂
                    (by simp [hdw])
                  simpa [hdw] using this
            split at h
            · cases h
            · by_cases hf : f > 0
              · simp only [hf, if_true, decide_True, Bool.true_and, decide_eq_true_eq] at h
                split at h
                · cases h
                · split at h
                  · cases h
                  · rename_i hd
                    simp only [Except.ok.injEq, Prod.mk.injEq] at h
                    exact fin h.2 (by omega)
              · simp only [hf, if_false, decide_False, Bool.false_and, Bool.false_eq_true] at h
                split at h
                · cases h
                · rename_i hd
                  simp only [Except.ok.injEq, Prod.mk.injEq] at h
                  exact fin h.2 (by omega)


theorem takeWhile_append_of_exists {α : Type} (p : α → Bool) :
    ∀ (x y : List α), (∃ e ∈ x, p e = false) → (x ++ y).takeWhile p = x.takeWhile p := by
  intro x
  induction x with
  | nil => intro y h; simp at h
  | cons a x ih =>
    intro y h
    by_cases ha : p a = true
    · have h' : ∃ e ∈ x, p e = false := by
        obtain ⟨e, he, hpe⟩ := h
        rcases List.mem_cons.1 he with rfl | he
        · rw [ha] at hpe; cases hpe
        · exact ⟨e, he, hpe⟩
      simp [List.takeWhile_cons, ha, ih y h']
    · simp [List.takeWhile_cons, ha]

theorem takeWhile_append_of_all {α : Type} (p : α → Bool) :
    ∀ (x y : List α), (∀ e ∈ x, p e = true) →
      (x ++ y).takeWhile p = x ++ y.takeWhile p := by
  intro x
  induction x with
  | nil => intro y _; simp
  | cons a x ih =>
    intro y h
    have ha : p a = true := h a (List.mem_cons_self _ _)
    have hx : ∀ e ∈ x, p e = true := fun e he => h e (List.mem_cons_of_mem _ he)
    simp [List.takeWhile_cons, ha, ih y hx]

theorem unitSuffix_append_of_num (a b : Bytes) (h : ∃ x ∈ b, isNumByte x = true) :
    unitSuffix (a ++ b) = unitSuffix b := by
  unfold unitSuffix
  rw [List.reverse_append, takeWhile_append_of_exists]
  obtain ⟨x, hx, hn⟩ := h
  exact ⟨x, List.mem_reverse.2 hx, by simp [hn]⟩

theorem unitSuffix_num_append_unit (np u : Bytes) (hnp : np ≠ [])
    (hnum : ∀ x ∈ np, isNumByte x = true) (hu : ∀ x ∈ u, isNumByte x = false) :
    unitSuffix (np ++ u) = u := by
  unfold unitSuffix
  rw [List.reverse_append, takeWhile_append_of_all]
  · have hrev : np.reverse ≠ [] := by simpa using hnp
    obtain ⟨a, as, has⟩ := List.exists_cons_of_ne_nil hrev
    have ha : isNumByte a = true :=
      hnum a (List.mem_reverse.1 (by rw [has]; exact List.mem_cons_self _ _))
    rw [has]
    simp [List.takeWhile_cons, ha]
  · intro e he
    simp [hu e (List.mem_reverse.1 he)]

theorem unitMap_nil : unitMap [] = none := by decide

theorem parseLoop_nil (orig : Bytes) (fuel d : Nat) :
    parseLoop orig fuel [] d = some (.ok d) := by
  cases fuel <;> rfl

/-- Fuel: `s.length` rounds always exhaust `s`, so `parseLoop` never stops for
lack of fuel. -/
theorem parseLoop_fuel (orig : Bytes) :
    ∀ (fuel : Nat) (s : Bytes) (d : Nat), s.length ≤ fuel → parseLoop orig fuel s d ≠ none := by
  intro fuel
  induction fuel with
  | zero =>
    intro s d hlen
    have : s = [] := List.length_eq_zero.1 (Nat.le_zero.1 hlen)
    subst this
    simp [parseLoop_nil]
  | succ fuel ih =>
    intro s d hlen
    cases s with
    | nil => simp [parseLoop_nil]
    | cons c s' =>
      rw [parseLoop]
      cases hg : parseGroup orig c s' d with
      | error e => simp
      | ok r =>
        obtain ⟨d', s₃⟩ := r
        obtain ⟨np, u, unit, hs, hnp, -, -, -, -, -, -⟩ := parseGroup_ok _ _ _ _ _ _ hg
        simp only
        apply ih
        have hl := congrArg List.length hs
        have : 0 < np.length := List.length_pos.2 hnp
        simp only [List.length_cons, List.length_append] at hl hlen
        omega

theorem parseLoop_ok (orig : Bytes) :
    ∀ (fuel : Nat) (s : Bytes) (d r : Nat), parseLoop orig fuel s d = some (.ok r) →
      (d ≤ 2 ^ 63 → r ≤ 2 ^ 63) ∧
      (s = [] ∨ ((∃ unit, unitMap (unitSuffix s) = some unit) ∧
        ∀ x ∈ s.head?, isNumByte x = true)) := by
  intro fuel
  induction fuel with
  | zero =>
    intro s d r h
    cases s with
    | nil =>
      simp only [parseLoop_nil, Option.some.injEq, Except.ok.injEq] at h
      subst h
      exact ⟨id, Or.inl rfl⟩
    | cons c s' => simp [parseLoop] at h
  | succ fuel ih =>
    intro s d r h
    cases s with
    | nil =>
      simp only [parseLoop_nil, Option.some.injEq, Except.ok.injEq] at h
      subst h
      exact ⟨id, Or.inl rfl⟩
    | cons c s' =>
      rw [parseLoop] at h
      cases hg : parseGroup orig c s' d with
      | error e => simp [hg] at h
      | ok p =>
        obtain ⟨d', s₃⟩ := p
        rw [hg] at h
        simp only at h
        obtain ⟨np, u, unit, hs, hnp, hnum, hu, hunum, hunit, hhead, hd'⟩ :=
          parseGroup_ok _ _ _ _ _ _ hg
        obtain ⟨hr, hsuf⟩ := ih s₃ d' r h
        refine ⟨fun _ => hr hd', Or.inr ⟨?_, ?_⟩⟩
        · rcases hsuf with hnil | ⟨⟨unit', hunit'⟩, -⟩
          · subst hnil
            rw [hs, List.append_nil, unitSuffix_num_append_unit np u hnp hnum hunum]
            exact ⟨unit, hunit⟩
          · refine ⟨unit', ?_⟩
            cases s₃ with
            | nil =>
              have : unitSuffix ([] : Bytes) = [] := rfl
              rw [this, unitMap_nil] at hunit'
              cases hunit'
            | cons a as =>
              have ha : isNumByte a = true := hhead a (by simp)
              rw [hs, ← List.append_assoc,
                unitSuffix_append_of_num _ _ ⟨a, List.mem_cons_self _ _, ha⟩]
              exact hunit'
        · intro x hx
          have hxc : c = x := by simpa using hx
          rw [← hxc]
          obtain ⟨a, as, has⟩ := List.exists_cons_of_ne_nil hnp
          rw [has, List.cons_append] at hs
          have hca : c = a := (List.cons.inj hs).1
          rw [hca]
          exact hnum a (by rw [has]; exact List.mem_cons_self _ _)


theorem toInt64_neg_toInt64 (d : Nat) (hd : d ≤ 2 ^ 63) :
    toInt64 (-(toInt64 (d : Int))) = -(d : Int) := by
  have h63 : (2 : Int) ^ 63 = 9223372036854775808 := by norm_num
  have h64 : (2 : Int) ^ 64 = 18446744073709551616 := by norm_num
  have hn63 : (2 : Nat) ^ 63 = 9223372036854775808 := by norm_num
  rw [hn63] at hd
  unfold toInt64
  rw [h63, h64]
  omega

theorem toInt64_of_lt (d : Nat) (hd : d ≤ 2 ^ 63 - 1) : toInt64 (d : Int) = (d : Int) := by
  have h63 : (2 : Int) ^ 63 = 9223372036854775808 := by norm_num
  have h64 : (2 : Int) ^ 64 = 18446744073709551616 := by norm_num
  have hn63 : (2 : Nat) ^ 63 = 9223372036854775808 := by norm_num
  rw [hn63] at hd
  unfold toInt64
  rw [h63, h64]
  omega

theorem ParseDuration_body (orig s : Bytes) (neg : Bool) (v : Duration)
    (h : (if s = [48] then (.ok 0 : Except DurationError Duration)
      else if s = [] then .error (.invalid orig)
      else
        match parseLoop orig s.length s 0 with
        | none => .error (.invalid orig)
        | some (.error e) => .error e
        | some (.ok d) =>
          if neg then .ok (toInt64 (-(toInt64 d)))
          else if d > 2 ^ 63 - 1 then .error (.invalid orig)
          else .ok (toInt64 d)) = .ok v) :
    (s = [48] ∧ v = 0) ∨
    (s ≠ [] ∧ ∃ d, parseLoop orig s.length s 0 = some (.ok d) ∧ d ≤ 2 ^ 63 ∧
      ((neg = true ∧ v = -(d : Int)) ∨ (neg = false ∧ d ≤ 2 ^ 63 - 1 ∧ v = (d : Int)))) := by
  split at h
  · rename_i h0
    simp only [Except.ok.injEq] at h
    exact Or.inl ⟨h0, h.symm⟩
  · split at h
    · cases h
    · rename_i hne
      right
      refine ⟨hne, ?_⟩
      split at h
      · cases h
      · cases h
      · rename_i d hd
        have hd63 : d ≤ 2 ^ 63 := (parseLoop_ok orig _ _ _ _ hd).1 (by omega)
        refine ⟨d, hd, hd63, ?_⟩
        split at h
        · rename_i hneg
          simp only [Except.ok.injEq] at h
          left
          refine ⟨hneg, ?_⟩
          rw [← h]
          exact toInt64_neg_toInt64 d hd63
        · rename_i hneg
          split at h
          · cases h
          · rename_i hmax
            simp only [Except.ok.injEq] at h
            right
            refine ⟨by simpa using hneg, by omega, ?_⟩
            rw [← h]
            exact toInt64_of_lt d (by omega)


theorem unitSuffix_cons_of_num (c : UInt8) (s : Bytes) (h : ∃ x ∈ s, isNumByte x = true) :
    unitSuffix (c :: s) = unitSuffix s :=
  unitSuffix_append_of_num [c] s h

/-- What `time.ParseDuration` accepts: either the text is "0", "+0" or "-0", or
its trailing unit text is a unit of `unitMap`; the value is non-negative unless
the text starts with a minus sign, and non-positive when it does. -/
theorem ParseDuration_ok (orig : Bytes) (v : Duration) (h : ParseDuration orig = .ok v) :
    ((orig = [48] ∨ orig = [43, 48] ∨ orig = [45, 48]) ∨
      ∃ unit, unitMap (unitSuffix orig) = some unit) ∧
    (orig.head? ≠ some 45 → 0 ≤ v) ∧ (orig.head? = some 45 → v ≤ 0) := by
  cases orig with
  | nil =>
    rw [show ParseDuration [] = .error (.invalid []) from rfl] at h
    cases h
  | cons c t =>
    by_cases hsign : (c == 45 || c == 43) = true
    · have hb := ParseDuration_body (c :: t) t (c == 45) v
        (by unfold ParseDuration at h; simpa only [hsign, if_true] using h)
      have hc : c = 45 ∨ c = 43 := by simpa using hsign
      rcases hb with ⟨ht, hv⟩ | ⟨hne, d, hd, hd63, hres⟩
      · subst ht
        subst hv
        refine ⟨Or.inl ?_, fun _ => le_refl _, fun _ => le_refl _⟩
        rcases hc with rfl | rfl
        · exact Or.inr (Or.inr rfl)
        · exact Or.inr (Or.inl rfl)
      · obtain ⟨-, hsuf⟩ := parseLoop_ok _ _ _ _ _ hd
        rcases hsuf with hnil | ⟨⟨unit, hunit⟩, hhead⟩
        · exact absurd hnil hne
        · refine ⟨Or.inr ⟨unit, ?_⟩, ?_, ?_⟩
          · obtain ⟨a, as, has⟩ := List.exists_cons_of_ne_nil hne
            have ha : isNumByte a = true := hhead a (by simp [has])
            rw [unitSuffix_cons_of_num c t ⟨a, by simp [has], ha⟩]
            exact hunit
          · intro hnot
            rcases hres with ⟨hneg, -⟩ | ⟨hneg, -, hv⟩
            · exact absurd (by simpa using hneg) hnot
            · rw [hv]; exact Int.ofNat_nonneg d
          · intro _
            rcases hres with ⟨-, hv⟩ | ⟨hneg, -, hv⟩
            · rw [hv]
              exact Int.neg_nonpos_of_nonneg (Int.ofNat_nonneg d)
            · rename_i h45
              simp only [List.head?_cons, Option.some.injEq] at h45
              simp [h45] at hneg
    · have hb := ParseDuration_body (c :: t) (c :: t) false v
        (by unfold ParseDuration at h; simpa only [hsign, if_false] using h)
      have hc : ¬ (c = 45 ∨ c = 43) := by simpa using hsign
      have hc45 : c ≠ 45 := fun h45 => hc (Or.inl h45)
      rcases hb with ⟨ht, hv⟩ | ⟨hne, d, hd, hd63, hres⟩
      · subst hv
        exact ⟨Or.inl (Or.inl ht), fun _ => le_refl _, fun _ => le_refl _⟩
      · obtain ⟨-, hsuf⟩ := parseLoop_ok _ _ _ _ _ hd
        rcases hsuf with hnil | ⟨⟨unit, hunit⟩, -⟩
        · exact absurd hnil hne
        · refine ⟨Or.inr ⟨unit, hunit⟩, ?_, ?_⟩
          · intro _
            rcases hres with ⟨hneg, -⟩ | ⟨-, -, hv⟩
            · cases hneg
            · rw [hv]; exact Int.ofNat_nonneg d
          · intro h45
            simp only [List.head?_cons, Option.some.injEq] at h45
            exact absurd h45 hc45


theorem isDigit_imp_isNum (c : UInt8) (h : isDigit c = true) : isNumByte c = true := by
  simp only [isDigit] at h
  simp [isNumByte, h]

theorem unitSuffix_of_digits (b : Bytes) (hne : b ≠ []) (hd : ∀ c ∈ b, isDigit c = true) :
    unitSuffix b = [] := by
  have h := unitSuffix_num_append_unit b [] hne (fun x hx => isDigit_imp_isNum x (hd x hx))
    (by simp)
  simpa using h

theorem UnmarshalText_of_error (d : Duration) (b : Bytes) (e : DurationError)
    (h : ParseDuration b = .error e) : UnmarshalText d b = (some e, d) := by
  simp [UnmarshalText, h]

theorem UnmarshalText_of_ok (d v : Duration) (b : Bytes)
    (h : ParseDuration b = .ok v) : UnmarshalText d b = (none, v) := by
  simp [UnmarshalText, h]

/-! ### `Duration.UnmarshalText` -/

set_option maxRecDepth 100000 in
/-- The `scale` of `leadingFraction` is a rounded `float64`: after 25 accepted
digits it is 9999999999999998758486016 and not `10^25`. -/
theorem leadingFraction_scale_rounds :
    (leadingFraction (utf8 "0000000000000000000000001ns") 0 (.finite 1 1) false).2.1 =
      .finite 9999999999999998758486016 1 := by
  rfl

set_option maxRecDepth 100000 in
/-- Texts with a fraction: "1.5h" is 90 minutes, the 23-digit fraction
"0.00000005699999999999999s" is 57 ns, and after 9223372036854775751 ns it
brings the sum to `2^63`, which is rejected. -/
theorem UnmarshalText_fraction_examples :
    UnmarshalText 0 (utf8 "1.5h") = (none, 5400000000000) ∧
    UnmarshalText 0 (utf8 "0.00000005699999999999999s") = (none, 57) ∧
    UnmarshalText 0 (utf8 "9223372036854775751ns0.00000005699999999999999s") =
      (some (.invalid (utf8 "9223372036854775751ns0.00000005699999999999999s")), 0) ∧
    UnmarshalText 7
        (utf8 "9223372036854775751ns0.00000005699999999999999s9223372036854775808ns") =
      (none, 0) := by
  refine ⟨by decide, by decide, by decide, by decide⟩

/-- C6: `Duration.UnmarshalText` decodes the conventional forms to the exact
spans: "30s" gives 30 seconds, "3h" gives 3 hours, "1h30m" gives 90 minutes;
the unit-less text "5" makes it fail with an error (missing unit) and leaves
the Duration it was called on unchanged. -/
theorem UnmarshalText_conventional_forms (d : Duration) :
    UnmarshalText d (utf8 "30s") = (none, 30 * Second) ∧
    UnmarshalText d (utf8 "3h") = (none, 3 * Hour) ∧
    UnmarshalText d (utf8 "1h30m") = (none, 90 * Minute) ∧
    UnmarshalText d (utf8 "5") = (some (.missingUnit (utf8 "5")), d) :=
  ⟨UnmarshalText_of_ok d _ _ (by rfl), UnmarshalText_of_ok d _ _ (by rfl),
    UnmarshalText_of_ok d _ _ (by rfl), UnmarshalText_of_error d _ _ (by rfl)⟩

/-- C7 (as stated, refuted): the text "0" is a bare digit string without a
unit, and `UnmarshalText` accepts it, storing the zero span. -/
theorem UnmarshalText_zero_counterexample :
    (utf8 "0" ≠ [] ∧ ∀ c ∈ utf8 "0", isDigit c = true) ∧
    UnmarshalText 7 (utf8 "0") = (none, 0) :=
  ⟨⟨by decide, by decide⟩, by decide⟩

/-- C7 (amended): `UnmarshalText` fails, leaving the Duration unchanged, if the
text is empty, is a bare digit string other than "0", or ends in a unit text
(its longest suffix without digit or period) that is non-empty and not a unit
of `unitMap`. -/
theorem UnmarshalText_rejects (d : Duration) (b : Bytes)
    (h : b = [] ∨ (b ≠ [] ∧ (∀ c ∈ b, isDigit c = true) ∧ b ≠ utf8 "0") ∨
      (unitSuffix b ≠ [] ∧ unitMap (unitSuffix b) = none)) :
    ∃ err, UnmarshalText d b = (some err, d) := by
  cases hP : ParseDuration b with
  | error e => exact ⟨e, UnmarshalText_of_error d b e hP⟩
  | ok v =>
    exfalso
    obtain ⟨hacc, -, -⟩ := ParseDuration_ok b v hP
    rcases h with hnil | ⟨hne, hdig, hz⟩ | ⟨hsuf, hunk⟩
    · subst hnil
      rcases hacc with (h0 | h0 | h0) | ⟨unit, hunit⟩
      · cases h0
      · cases h0
      · cases h0
      · rw [show unitSuffix ([] : Bytes) = [] from rfl, unitMap_nil] at hunit
        cases hunit
    · rcases hacc with (h0 | h0 | h0) | ⟨unit, hunit⟩
      · exact hz (by rw [h0]; decide)
      · have := hdig 43 (by rw [h0]; simp)
        exact absurd this (by decide)
      · have := hdig 45 (by rw [h0]; simp)
        exact absurd this (by decide)
      · rw [unitSuffix_of_digits b hne hdig, unitMap_nil] at hunit
        cases hunit
    · rcases hacc with (h0 | h0 | h0) | ⟨unit, hunit⟩
      · exact hsuf (by rw [h0]; decide)
      · exact hsuf (by rw [h0]; decide)
      · exact hsuf (by rw [h0]; decide)
      · rw [hunk] at hunit
        cases hunit

theorem UnmarshalText_rejects_witness :
    (∃ err, UnmarshalText 7 (utf8 "") = (some err, 7)) ∧
    (∃ err, UnmarshalText 7 (utf8 "00") = (some err, 7)) ∧
    (∃ err, UnmarshalText 7 (utf8 "1h30x") = (some err, 7)) :=
  ⟨UnmarshalText_rejects 7 (utf8 "") (Or.inl (by decide)),
    UnmarshalText_rejects 7 (utf8 "00") (Or.inr (Or.inl ⟨by decide, by decide, by decide⟩)),
    UnmarshalText_rejects 7 (utf8 "1h30x") (Or.inr (Or.inr ⟨by decide, by decide⟩))⟩

/-- C8 (as stated, refuted): `UnmarshalText` accepts "-1s" and constructs the
negative span of -1,000,000,000 ns. -/
theorem UnmarshalText_negative_counterexample :
    UnmarshalText 0 (utf8 "-1s") = (none, -1000000000) ∧ (-1000000000 : Duration) < 0 :=
  ⟨by decide, by decide⟩

/-- C8 (amended): for every text that `UnmarshalText` accepts and that does not
start with a minus sign, the Duration it constructs is non-negative; for an
accepted text that starts with a minus sign it is non-positive. -/
theorem UnmarshalText_sign (d v : Duration) (b : Bytes)
    (h : UnmarshalText d b = (none, v)) :
    (b.head? ≠ some 45 → 0 ≤ v) ∧ (b.head? = some 45 → v ≤ 0) := by
  cases hP : ParseDuration b with
  | error e =>
    rw [UnmarshalText_of_error d b e hP] at h
    simp at h
  | ok w =>
    rw [UnmarshalText_of_ok d w b hP] at h
    simp only [Prod.mk.injEq, true_and] at h
    subst h
    exact (ParseDuration_ok b w hP).2

theorem UnmarshalText_sign_witness :
    UnmarshalText 0 (utf8 "1h30m") = (none, 5400000000000) ∧
    (0 : Duration) ≤ 5400000000000 :=
  ⟨by decide, (UnmarshalText_sign 0 5400000000000 (utf8 "1h30m") (by decide)).1 (by decide)⟩

end Flywheel
